import Mathlib

/- Shallow embedding of fs-swap (src/lib.rs).

The source performs whole-path filesystem operations only: `fs::metadata`,
`fs::rename`, `fs::remove_file`, `fs::remove_dir_all`.  We model the
filesystem as a flat map from paths (lists of components) to entries, where an
entry (file or directory) owns its whole subtree as an opaque payload; every
operation of the source acts at whole-path granularity, so this abstraction is
exact for the code under study.

Each primitive can fail in the real world (permission errors, cross-device
errors, and the Windows behaviour where a rename can leave a residual entry at
the source).  This is modelled by an oracle: a list of `Outcome`s consumed one
per primitive call.  `Outcome.ok` (and an exhausted oracle) means the
primitive behaves normally; `Outcome.err e` makes the call fail with `e` and
leave the filesystem unchanged; `Outcome.okResidue` makes a rename succeed but
leave a residual copy of the entry at the source (the platform quirk the
source defends against).  A probe (`metadata`) that is told `Outcome.err e`
reports `e`; honest probes report presence and kind exactly.  Every primitive
also appends an `Event` to a log, so theorems can speak about which operations
were attempted and in which order. -/

namespace FsSwap

/- Paths are lists of components measured from the root; `parent` drops the
last component and is `none` on the empty path, mirroring `std::path::Path`
where the root has no parent. -/
abbrev Path := List String

inductive Entry
| file (payload : Nat)
| dir (payload : Nat)
  deriving DecidableEq

def Entry.isDir : Entry → Bool
| Entry.dir _ => true
| Entry.file _ => false

inductive ErrKind
| notFound
| permissionDenied
| other (code : Nat)
  deriving DecidableEq

structure Err where
  kind : ErrKind
  msg : String
  deriving DecidableEq

def enoent : Err := { kind := ErrKind.notFound, msg := "NotFound" }

def eisdir : Err := { kind := ErrKind.other 21, msg := "IsADirectory" }

def enotdir : Err := { kind := ErrKind.other 20, msg := "NotADirectory" }

/- The error built at src/lib.rs:29: io::Error::new(ErrorKind::NotFound,
"Could not find a parent directory"). -/
def noParentErr : Err :=
  { kind := ErrKind.notFound, msg := "Could not find a parent directory" }

/- io::Result, with the error type made concrete. -/
inductive Res (α : Type)
| ok (val : α)
| err (e : Err)
  deriving DecidableEq

abbrev Fs := Path → Option Entry

inductive Outcome
| ok
| okResidue
| err (e : Err)
  deriving DecidableEq

inductive Event
| mstat (p : Path) (r : Res Bool)
| mrename (src dst : Path) (r : Res Unit)
| mremoveFile (p : Path) (r : Res Unit)
| mremoveDirAll (p : Path) (r : Res Unit)
  deriving DecidableEq

structure St where
  fs : Fs
  oracle : List Outcome
  log : List Event

def next (st : St) : Outcome × St :=
  match st.oracle with
  | [] => (Outcome.ok, st)
  | o :: rest => (o, { st with oracle := rest })

def emit (ev : Event) (st : St) : St := { st with log := st.log ++ [ev] }

/- fs::metadata: reports whether the entry is a directory; NotFound when the
path has no entry; an injected fault makes the probe fail with that error. -/
def metaSt (p : Path) (st : St) : Res Bool × St :=
  match next st with
  | (o, st1) =>
    let r : Res Bool :=
      match o with
      | Outcome.err e => Res.err e
      | _ =>
        match st1.fs p with
        | some en => Res.ok en.isDir
        | none => Res.err enoent
    (r, emit (Event.mstat p r) st1)

/- fs::rename: moves the entry at src to dst (overwriting dst); NotFound when
src has no entry; `okResidue` succeeds but leaves a residual entry at src (the
platform quirk the source defends against); an injected fault fails with that
error and moves nothing. -/
def renameSt (src dst : Path) (st : St) : Res Unit × St :=
  match next st with
  | (Outcome.err e, st1) => (Res.err e, emit (Event.mrename src dst (Res.err e)) st1)
  | (o, st1) =>
    match st1.fs src with
    | none => (Res.err enoent, emit (Event.mrename src dst (Res.err enoent)) st1)
    | some en =>
      let keep : Bool :=
        match o with
        | Outcome.okResidue => true
        | _ => false
      let fs1 : Fs := fun q =>
        if q = dst then some en
        else if q = src then (if keep then some en else none)
        else st1.fs q
      (Res.ok (), emit (Event.mrename src dst (Res.ok ())) { st1 with fs := fs1 })

/- fs::remove_file: deletes the entry at p when it is a file. -/
def removeFileSt (p : Path) (st : St) : Res Unit × St :=
  match next st with
  | (Outcome.err e, st1) => (Res.err e, emit (Event.mremoveFile p (Res.err e)) st1)
  | (_, st1) =>
    match st1.fs p with
    | none => (Res.err enoent, emit (Event.mremoveFile p (Res.err enoent)) st1)
    | some en =>
      if en.isDir then (Res.err eisdir, emit (Event.mremoveFile p (Res.err eisdir)) st1)
      else
        (Res.ok (), emit (Event.mremoveFile p (Res.ok ()))
          { st1 with fs := fun q => if q = p then none else st1.fs q })

/- fs::remove_dir_all: deletes the entry at p (and, in the flat model, the
whole subtree it owns) when it is a directory. -/
def removeDirAllSt (p : Path) (st : St) : Res Unit × St :=
  match next st with
  | (Outcome.err e, st1) => (Res.err e, emit (Event.mremoveDirAll p (Res.err e)) st1)
  | (_, st1) =>
    match st1.fs p with
    | none => (Res.err enoent, emit (Event.mremoveDirAll p (Res.err enoent)) st1)
    | some en =>
      if en.isDir then
        (Res.ok (), emit (Event.mremoveDirAll p (Res.ok ()))
          { st1 with fs := fun q => if q = p then none else st1.fs q })
      else (Res.err enotdir, emit (Event.mremoveDirAll p (Res.err enotdir)) st1)

/- The type-dispatched removal shape shared by the stale-slot cleanup
(src/lib.rs:35-40), the defensive clear of a (lines 47-58) and the defensive
clear of b (lines 78-83): probe the path; remove a directory with
remove_dir_all and a file with remove_file; tolerate NotFound from the probe;
propagate any other probe error and any removal error. -/
def clearPath (p : Path) (st : St) : Res Unit × St :=
  match metaSt p st with
  | (Res.ok true, st1) => removeDirAllSt p st1
  | (Res.ok false, st1) => removeFileSt p st1
  | (Res.err e, st1) =>
    if e.kind = ErrKind.notFound then (Res.ok (), st1) else (Res.err e, st1)

/- The logging-only probe at src/lib.rs:60-65: `match fs::metadata(&b)` whose
result is only warned about and otherwise ignored. -/
def probeIgnore (p : Path) (st : St) : St := (metaSt p st).2

def parent (p : Path) : Option Path :=
  match p with
  | [] => none
  | _ :: _ => some p.dropLast

def TMP_SWAP_FILE : String := "tmp.fs_swap"

/- src/lib.rs:27-30: a.parent().or_else(|| b.parent()).ok_or(...)?.join(TMP_SWAP_FILE). -/
def slotOpt (a b : Path) : Option Path :=
  match parent a with
  | some d => some (d ++ [TMP_SWAP_FILE])
  | none =>
    match parent b with
    | some d => some (d ++ [TMP_SWAP_FILE])
    | none => none

/- src/lib.rs:85-95: the final rename of tmp to b, with the two-step undo on
failure (rename a to b, then rename tmp to a; the first undo uses `?`, so its
failure skips the second). -/
def swapFrom7 (a b tmp : Path) (st : St) : Res Unit × St :=
  match renameSt tmp b st with
  | (Res.ok _, st1) => (Res.ok (), st1)
  | (Res.err _, st1) =>
    match renameSt a b st1 with
    | (Res.err e, st2) => (Res.err e, st2)
    | (Res.ok _, st2) => renameSt tmp a st2

/- src/lib.rs:67-95: rename b to a; on failure return the result of the single
rollback rename of tmp back to a (src/lib.rs:73: `return fs::rename(&tmp, a)`,
which discards the original error); on success defensively clear b and go on
to the final rename. -/
def swapFrom5 (a b tmp : Path) (st : St) : Res Unit × St :=
  match renameSt b a st with
  | (Res.err _, st1) => renameSt tmp a st1
  | (Res.ok _, st1) =>
    match clearPath b st1 with
    | (Res.err e, st2) => (Res.err e, st2)
    | (Res.ok _, st2) => swapFrom7 a b tmp st2

/- src/lib.rs:43-95: evacuate a into tmp (failure propagates untouched),
defensively clear a, run the logging-only probe of b, then continue. -/
def swapFrom3 (a b tmp : Path) (st : St) : Res Unit × St :=
  match renameSt a tmp st with
  | (Res.err e, st1) => (Res.err e, st1)
  | (Res.ok _, st1) =>
    match clearPath a st1 with
    | (Res.err e, st2) => (Res.err e, st2)
    | (Res.ok _, st2) => swapFrom5 a b tmp (probeIgnore b st2)

/- src/lib.rs:21-96: swap_nonatomic. -/
def swap_nonatomic (a b : Path) (st : St) : Res Unit × St :=
  match slotOpt a b with
  | none => (Res.err noParentErr, st)
  | some tmp =>
    match clearPath tmp st with
    | (Res.err e, st1) => (Res.err e, st1)
    | (Res.ok _, st1) => swapFrom3 a b tmp st1

/-- Modelled from the spec: the `platform` module referenced at src/lib.rs:10
and called by `swap` (src/lib.rs:16-18) is not among the sources.  Per spec
sections 4.1 and 6, `swap` first tries the OS atomic exchange primitive, which
either performs an indivisible exchange of the two directory entries
(`handled`), reports that the pair is unsupported so that the caller falls
back to `swap_nonatomic` (`notSupported`), or fails with a genuine error that
propagates without fallback (`failed`).  The primitive's decision is a
parameter of the model. -/
inductive AtomicOutcome
| handled
| notSupported
| failed (e : Err)

/-- Modelled from the spec: the indivisible exchange of the entries at a and b
performed by the OS primitive when it reports `handled`. -/
def atomicExchangeFs (a b : Path) (fs : Fs) : Fs :=
  fun q => if q = a then fs b else if q = b then fs a else fs q

/-- Modelled from the spec: `swap` (src/lib.rs:16-18), whose platform-specific
body is absent from the sources: try the atomic primitive, fall back to
`swap_nonatomic` exactly when it reports not-supported. -/
def swap (ao : AtomicOutcome) (a b : Path) (st : St) : Res Unit × St :=
  match ao with
  | AtomicOutcome.handled => (Res.ok (), { st with fs := atomicExchangeFs a b st.fs })
  | AtomicOutcome.failed e => (Res.err e, st)
  | AtomicOutcome.notSupported => swap_nonatomic a b st

/- Wellformed fault oracles: an injected error is never NotFound, i.e. a probe
never reports an existing entry as absent and an operation on an existing
source never spuriously reports it missing; NotFound arises only honestly,
from genuinely absent entries.  (With no concurrent writers this is how the
real primitives behave.) -/
def outcomeWF : Outcome → Bool
| Outcome.err e => decide (e.kind ≠ ErrKind.notFound)
| _ => true

def oracleWF (l : List Outcome) : Prop := ∀ o ∈ l, outcomeWF o = true

instance (l : List Outcome) : Decidable (oracleWF l) := by
  unfold oracleWF
  infer_instance

/- Lemmas about the primitive operations. -/

theorem renameSt_err_state (s d : Path) (st st' : St) (e : Err)
    (h : renameSt s d st = (Res.err e, st')) :
    st'.fs = st.fs ∧ st'.log = st.log ++ [Event.mrename s d (Res.err e)] ∧
    (st.oracle = [] → st'.oracle = []) := by
  obtain ⟨f, orc, lg⟩ := st
  rcases orc with _ | ⟨o, rest⟩
  · rcases hf : f s with _ | en
    · simp [renameSt, next, emit, hf] at h
      obtain ⟨he, rfl⟩ := h
      subst he
      simp
    · simp [renameSt, next, emit, hf] at h
  · cases o with
    | ok =>
      rcases hf : f s with _ | en
      · simp [renameSt, next, emit, hf] at h
        obtain ⟨he, rfl⟩ := h
        subst he
        simp
      · simp [renameSt, next, emit, hf] at h
    | okResidue =>
      rcases hf : f s with _ | en
      · simp [renameSt, next, emit, hf] at h
        obtain ⟨he, rfl⟩ := h
        subst he
        simp
      · simp [renameSt, next, emit, hf] at h
    | err e0 =>
      simp [renameSt, next, emit] at h
      obtain ⟨he, rfl⟩ := h
      subst he
      simp

theorem metaSt_state (p : Path) (st : St) :
    ((metaSt p st).2).fs = st.fs ∧
    ((metaSt p st).2).log = st.log ++ [Event.mstat p (metaSt p st).1] ∧
    (st.oracle = [] → ((metaSt p st).2).oracle = []) := by
  obtain ⟨f, orc, lg⟩ := st
  rcases orc with _ | ⟨o, rest⟩
  · simp [metaSt, next, emit]
  · cases o <;> simp [metaSt, next, emit]

theorem metaSt_ok_some (p : Path) (st : St) (b : Bool) (st' : St)
    (h : metaSt p st = (Res.ok b, st')) :
    st'.fs = st.fs ∧ ∃ en, st.fs p = some en ∧ en.isDir = b := by
  obtain ⟨f, orc, lg⟩ := st
  rcases orc with _ | ⟨o, rest⟩
  · rcases hf : f p with _ | en
    · simp [metaSt, next, emit, hf] at h
    · simp [metaSt, next, emit, hf] at h
      obtain ⟨hb, rfl⟩ := h
      exact ⟨rfl, en, hf, hb⟩
  · cases o with
    | ok =>
      rcases hf : f p with _ | en
      · simp [metaSt, next, emit, hf] at h
      · simp [metaSt, next, emit, hf] at h
        obtain ⟨hb, rfl⟩ := h
        exact ⟨rfl, en, hf, hb⟩
    | okResidue =>
      rcases hf : f p with _ | en
      · simp [metaSt, next, emit, hf] at h
      · simp [metaSt, next, emit, hf] at h
        obtain ⟨hb, rfl⟩ := h
        exact ⟨rfl, en, hf, hb⟩
    | err e0 => simp [metaSt, next, emit] at h

theorem metaSt_err_wf (p : Path) (st : St) (e : Err) (st' : St)
    (hwf : oracleWF st.oracle) (h : metaSt p st = (Res.err e, st')) :
    st'.fs = st.fs ∧ (e.kind = ErrKind.notFound → st.fs p = none) := by
  obtain ⟨f, orc, lg⟩ := st
  rcases orc with _ | ⟨o, rest⟩
  · rcases hf : f p with _ | en
    · simp [metaSt, next, emit, hf] at h
      obtain ⟨he, rfl⟩ := h
      exact ⟨rfl, fun _ => hf⟩
    · simp [metaSt, next, emit, hf] at h
  · cases o with
    | ok =>
      rcases hf : f p with _ | en
      · simp [metaSt, next, emit, hf] at h
        obtain ⟨he, rfl⟩ := h
        exact ⟨rfl, fun _ => hf⟩
      · simp [metaSt, next, emit, hf] at h
    | okResidue =>
      rcases hf : f p with _ | en
      · simp [metaSt, next, emit, hf] at h
        obtain ⟨he, rfl⟩ := h
        exact ⟨rfl, fun _ => hf⟩
      · simp [metaSt, next, emit, hf] at h
    | err e0 =>
      have hwf0 : outcomeWF (Outcome.err e0) = true := hwf _ (List.mem_cons_self _ _)
      simp [outcomeWF] at hwf0
      simp [metaSt, next, emit] at h
      obtain ⟨he, rfl⟩ := h
      subst he
      exact ⟨rfl, fun hk => absurd hk hwf0⟩

theorem removeDirAllSt_ok (p : Path) (st st' : St)
    (h : removeDirAllSt p st = (Res.ok (), st')) :
    st'.fs p = none ∧ ∀ q, q ≠ p → st'.fs q = st.fs q := by
  obtain ⟨f, orc, lg⟩ := st
  rcases orc with _ | ⟨o, rest⟩
  · rcases hf : f p with _ | en
    · simp [removeDirAllSt, next, emit, hf] at h
    · rcases hd : en.isDir with _ | _
      · simp [removeDirAllSt, next, emit, hf, hd] at h
      · simp [removeDirAllSt, next, emit, hf, hd] at h
        subst h
        exact ⟨by simp, fun q hq => by simp [hq]⟩
  · cases o with
    | ok =>
      rcases hf : f p with _ | en
      · simp [removeDirAllSt, next, emit, hf] at h
      · rcases hd : en.isDir with _ | _
        · simp [removeDirAllSt, next, emit, hf, hd] at h
        · simp [removeDirAllSt, next, emit, hf, hd] at h
          subst h
          exact ⟨by simp, fun q hq => by simp [hq]⟩
    | okResidue =>
      rcases hf : f p with _ | en
      · simp [removeDirAllSt, next, emit, hf] at h
      · rcases hd : en.isDir with _ | _
        · simp [removeDirAllSt, next, emit, hf, hd] at h
        · simp [removeDirAllSt, next, emit, hf, hd] at h
          subst h
          exact ⟨by simp, fun q hq => by simp [hq]⟩
    | err e0 => simp [removeDirAllSt, next, emit] at h

theorem removeFileSt_ok (p : Path) (st st' : St)
    (h : removeFileSt p st = (Res.ok (), st')) :
    st'.fs p = none ∧ ∀ q, q ≠ p → st'.fs q = st.fs q := by
  obtain ⟨f, orc, lg⟩ := st
  rcases orc with _ | ⟨o, rest⟩
  · rcases hf : f p with _ | en
    · simp [removeFileSt, next, emit, hf] at h
    · rcases hd : en.isDir with _ | _
      · simp [removeFileSt, next, emit, hf, hd] at h
        subst h
        exact ⟨by simp, fun q hq => by simp [hq]⟩
      · simp [removeFileSt, next, emit, hf, hd] at h
  · cases o with
    | ok =>
      rcases hf : f p with _ | en
      · simp [removeFileSt, next, emit, hf] at h
      · rcases hd : en.isDir with _ | _
        · simp [removeFileSt, next, emit, hf, hd] at h
          subst h
          exact ⟨by simp, fun q hq => by simp [hq]⟩
        · simp [removeFileSt, next, emit, hf, hd] at h
    | okResidue =>
      rcases hf : f p with _ | en
      · simp [removeFileSt, next, emit, hf] at h
      · rcases hd : en.isDir with _ | _
        · simp [removeFileSt, next, emit, hf, hd] at h
          subst h
          exact ⟨by simp, fun q hq => by simp [hq]⟩
        · simp [removeFileSt, next, emit, hf, hd] at h
    | err e0 => simp [removeFileSt, next, emit] at h

/- Unfold equations for the shape of clearPath: the type dispatch shared by
the stale-slot cleanup and the two defensive clears. -/

theorem clearPath_probe_dir (p : Path) (st st1 : St)
    (h : metaSt p st = (Res.ok true, st1)) :
    clearPath p st = removeDirAllSt p st1 := by
  unfold clearPath
  rw [h]

theorem clearPath_probe_file (p : Path) (st st1 : St)
    (h : metaSt p st = (Res.ok false, st1)) :
    clearPath p st = removeFileSt p st1 := by
  unfold clearPath
  rw [h]

theorem clearPath_probe_absent (p : Path) (st st1 : St) (e : Err)
    (h : metaSt p st = (Res.err e, st1)) (hk : e.kind = ErrKind.notFound) :
    clearPath p st = (Res.ok (), st1) := by
  unfold clearPath
  rw [h]
  simp [hk]

theorem clearPath_probe_err (p : Path) (st st1 : St) (e : Err)
    (h : metaSt p st = (Res.err e, st1)) (hk : e.kind ≠ ErrKind.notFound) :
    clearPath p st = (Res.err e, st1) := by
  unfold clearPath
  rw [h]
  simp [hk]

theorem clearPath_ok_wf (p : Path) (st st' : St)
    (hwf : oracleWF st.oracle) (h : clearPath p st = (Res.ok (), st')) :
    st'.fs p = none ∧ ∀ q, q ≠ p → st'.fs q = st.fs q := by
  rcases hm : metaSt p st with ⟨r, st1⟩
  rcases r with b | e
  · rcases b with _ | _
    · rw [clearPath_probe_file p st st1 hm] at h
      obtain ⟨h1, h2⟩ := removeFileSt_ok p st1 st' h
      have hfs := (metaSt_ok_some p st false st1 hm).1
      exact ⟨h1, fun q hq => by rw [h2 q hq, hfs]⟩
    · rw [clearPath_probe_dir p st st1 hm] at h
      obtain ⟨h1, h2⟩ := removeDirAllSt_ok p st1 st' h
      have hfs := (metaSt_ok_some p st true st1 hm).1
      exact ⟨h1, fun q hq => by rw [h2 q hq, hfs]⟩
  · obtain ⟨hfs, hnone⟩ := metaSt_err_wf p st e st1 hwf hm
    by_cases hk : e.kind = ErrKind.notFound
    · rw [clearPath_probe_absent p st st1 e hm hk] at h
      obtain ⟨rfl⟩ : st1 = st' := by
        have := congrArg Prod.snd h
        simpa using this
      exact ⟨by rw [hfs]; exact hnone hk, fun q hq => by rw [hfs]⟩
    · rw [clearPath_probe_err p st st1 e hm hk] at h
      simp at h

/- Unfold equations for the stages of swap_nonatomic. -/

theorem swap_nonatomic_slot (a b tmp : Path) (st : St)
    (hs : slotOpt a b = some tmp) :
    swap_nonatomic a b st =
      match clearPath tmp st with
      | (Res.err e, st1) => (Res.err e, st1)
      | (Res.ok _, st1) => swapFrom3 a b tmp st1 := by
  unfold swap_nonatomic
  rw [hs]

theorem swap_nonatomic_noparent (a b : Path) (st : St)
    (hs : slotOpt a b = none) :
    swap_nonatomic a b st = (Res.err noParentErr, st) := by
  unfold swap_nonatomic
  rw [hs]

theorem swap_nonatomic_cleared (a b tmp : Path) (st st1 : St)
    (hs : slotOpt a b = some tmp) (h2 : clearPath tmp st = (Res.ok (), st1)) :
    swap_nonatomic a b st = swapFrom3 a b tmp st1 := by
  rw [swap_nonatomic_slot a b tmp st hs, h2]

theorem swap_nonatomic_clear_err (a b tmp : Path) (st st1 : St) (e : Err)
    (hs : slotOpt a b = some tmp) (h2 : clearPath tmp st = (Res.err e, st1)) :
    swap_nonatomic a b st = (Res.err e, st1) := by
  rw [swap_nonatomic_slot a b tmp st hs, h2]

theorem swapFrom3_ok (a b tmp : Path) (st st1 st2 : St)
    (h3 : renameSt a tmp st = (Res.ok (), st1))
    (h4 : clearPath a st1 = (Res.ok (), st2)) :
    swapFrom3 a b tmp st = swapFrom5 a b tmp (probeIgnore b st2) := by
  unfold swapFrom3
  rw [h3]
  show (match clearPath a st1 with
    | (Res.err e, s) => (Res.err e, s)
    | (Res.ok _, s) => swapFrom5 a b tmp (probeIgnore b s)) = _
  rw [h4]

theorem swapFrom3_err (a b tmp : Path) (st st1 : St) (e : Err)
    (h3 : renameSt a tmp st = (Res.err e, st1)) :
    swapFrom3 a b tmp st = (Res.err e, st1) := by
  unfold swapFrom3
  rw [h3]

theorem swapFrom3_clear_err (a b tmp : Path) (st st1 st2 : St) (e : Err)
    (h3 : renameSt a tmp st = (Res.ok (), st1))
    (h4 : clearPath a st1 = (Res.err e, st2)) :
    swapFrom3 a b tmp st = (Res.err e, st2) := by
  unfold swapFrom3
  rw [h3]
  show (match clearPath a st1 with
    | (Res.err e, s) => (Res.err e, s)
    | (Res.ok _, s) => swapFrom5 a b tmp (probeIgnore b s)) = _
  rw [h4]

theorem swapFrom5_err5 (a b tmp : Path) (st st1 : St) (e : Err)
    (h5 : renameSt b a st = (Res.err e, st1)) :
    swapFrom5 a b tmp st = renameSt tmp a st1 := by
  unfold swapFrom5
  rw [h5]

theorem swapFrom5_ok5 (a b tmp : Path) (st st1 : St) (u : Unit)
    (h5 : renameSt b a st = (Res.ok u, st1)) :
    swapFrom5 a b tmp st =
      match clearPath b st1 with
      | (Res.err e, st2) => (Res.err e, st2)
      | (Res.ok _, st2) => swapFrom7 a b tmp st2 := by
  unfold swapFrom5
  rw [h5]

theorem swapFrom7_ok (a b tmp : Path) (st st1 : St) (u : Unit)
    (h7 : renameSt tmp b st = (Res.ok u, st1)) :
    swapFrom7 a b tmp st = (Res.ok (), st1) := by
  unfold swapFrom7
  rw [h7]

theorem swapFrom7_err (a b tmp : Path) (st st1 : St) (e : Err)
    (h7 : renameSt tmp b st = (Res.err e, st1)) :
    swapFrom7 a b tmp st =
      match renameSt a b st1 with
      | (Res.err e2, st2) => (Res.err e2, st2)
      | (Res.ok _, st2) => renameSt tmp a st2 := by
  unfold swapFrom7
  rw [h7]

/- Fault-free evaluation of the stages. -/

theorem clearPath_nil (p : Path) (st : St) (hor : st.oracle = []) :
    (clearPath p st).1 = Res.ok () ∧
    ((clearPath p st).2).fs p = none ∧
    (∀ q, q ≠ p → ((clearPath p st).2).fs q = st.fs q) ∧
    ((clearPath p st).2).oracle = [] := by
  obtain ⟨f, orc, lg⟩ := st
  replace hor : orc = [] := hor
  subst hor
  rcases hf : f p with _ | en
  · refine ⟨?_, ?_, fun q hq => ?_, ?_⟩ <;>
      simp [clearPath, metaSt, next, emit, hf, enoent]
  · cases en with
    | file d =>
      refine ⟨?_, ?_, fun q hq => ?_, ?_⟩
      · simp [clearPath, metaSt, removeFileSt, next, emit, hf, Entry.isDir]
      · simp [clearPath, metaSt, removeFileSt, next, emit, hf, Entry.isDir]
      · simp [clearPath, metaSt, removeFileSt, next, emit, hf, Entry.isDir, hq]
      · simp [clearPath, metaSt, removeFileSt, next, emit, hf, Entry.isDir]
    | dir d =>
      refine ⟨?_, ?_, fun q hq => ?_, ?_⟩
      · simp [clearPath, metaSt, removeDirAllSt, next, emit, hf, Entry.isDir]
      · simp [clearPath, metaSt, removeDirAllSt, next, emit, hf, Entry.isDir]
      · simp [clearPath, metaSt, removeDirAllSt, next, emit, hf, Entry.isDir, hq]
      · simp [clearPath, metaSt, removeDirAllSt, next, emit, hf, Entry.isDir]

theorem swapFrom3_success (a b tmp : Path) (st : St) (ea eb : Entry)
    (ha : a ≠ tmp) (hb : b ≠ tmp) (hor : st.oracle = [])
    (hfa : st.fs a = some ea) (hfb : st.fs b = some eb) :
    (swapFrom3 a b tmp st).1 = Res.ok () ∧
    ((swapFrom3 a b tmp st).2).fs a = st.fs b ∧
    ((swapFrom3 a b tmp st).2).fs b = st.fs a ∧
    ((swapFrom3 a b tmp st).2).fs tmp = none ∧
    ((swapFrom3 a b tmp st).2).oracle = [] := by
  obtain ⟨f, orc, lg⟩ := st
  replace hor : orc = [] := hor
  subst hor
  replace hfa : f a = some ea := hfa
  replace hfb : f b = some eb := hfb
  by_cases hab : a = b
  · subst hab
    refine ⟨?_, ?_, ?_, ?_, ?_⟩ <;>
      simp [swapFrom3, swapFrom5, swapFrom7, clearPath, metaSt, renameSt,
        probeIgnore, next, emit, enoent, hfa, hfb, ha, hb, Ne.symm ha, Ne.symm hb]
  · refine ⟨?_, ?_, ?_, ?_, ?_⟩ <;>
      simp [swapFrom3, swapFrom5, swapFrom7, clearPath, metaSt, renameSt,
        probeIgnore, next, emit, enoent, hfa, hfb, ha, hb, hab,
        Ne.symm ha, Ne.symm hb, Ne.symm hab]

/- Fault-free success of swap_nonatomic when both operands exist and neither
is the holding slot: the run succeeds, the contents are exchanged, and the
slot is empty afterwards.  The initial content of the slot is arbitrary (a
stale slot is cleared first). -/
theorem run_success (a b tmp : Path) (st : St) (ea eb : Entry)
    (hslot : slotOpt a b = some tmp) (ha : a ≠ tmp) (hb : b ≠ tmp)
    (hor : st.oracle = []) (hfa : st.fs a = some ea) (hfb : st.fs b = some eb) :
    (swap_nonatomic a b st).1 = Res.ok () ∧
    ((swap_nonatomic a b st).2).fs a = st.fs b ∧
    ((swap_nonatomic a b st).2).fs b = st.fs a ∧
    ((swap_nonatomic a b st).2).fs tmp = none ∧
    ((swap_nonatomic a b st).2).oracle = [] := by
  obtain ⟨hc1, hc2, hc3, hc4⟩ := clearPath_nil tmp st hor
  rcases hc : clearPath tmp st with ⟨rc, st1⟩
  rw [hc] at hc1 hc2 hc3 hc4
  simp only at hc1 hc2 hc3 hc4
  subst hc1
  have heq := swap_nonatomic_cleared a b tmp st st1 hslot hc
  rw [heq]
  have hfa1 : st1.fs a = some ea := by rw [hc3 a ha, hfa]
  have hfb1 : st1.fs b = some eb := by rw [hc3 b hb, hfb]
  obtain ⟨hs1, hs2, hs3, hs4, hs5⟩ :=
    swapFrom3_success a b tmp st1 ea eb ha hb hc4 hfa1 hfb1
  refine ⟨hs1, ?_, ?_, hs4, hs5⟩
  · rw [hs2, hc3 b hb]
  · rw [hs3, hc3 a ha]

/- Frame machinery: which paths an event touches as a creation, removal or
rename endpoint (a stat touches nothing), and the frame relation between the
state before and after a run. -/

def touches : Event → List Path
| Event.mstat _ _ => []
| Event.mrename s d _ => [s, d]
| Event.mremoveFile p _ => [p]
| Event.mremoveDirAll p _ => [p]

/- FrameOK A st st' means: going from st to st', entries outside the path set
A are unchanged, and every event appended to the log touches only paths in A
(so every entry created, removed or renamed, as source or destination, lies in
A). -/
def FrameOK (A : List Path) (st st' : St) : Prop :=
  (∀ p, p ∉ A → st'.fs p = st.fs p) ∧
  ∃ tail, st'.log = st.log ++ tail ∧ ∀ ev ∈ tail, ∀ q ∈ touches ev, q ∈ A

theorem frameOK_refl (A : List Path) (st : St) : FrameOK A st st :=
  ⟨fun _ _ => rfl, [], by simp, by simp⟩

theorem frameOK_trans (A : List Path) (st1 st2 st3 : St)
    (h1 : FrameOK A st1 st2) (h2 : FrameOK A st2 st3) : FrameOK A st1 st3 := by
  obtain ⟨hf1, t1, hl1, hm1⟩ := h1
  obtain ⟨hf2, t2, hl2, hm2⟩ := h2
  refine ⟨fun p hp => (hf2 p hp).trans (hf1 p hp), t1 ++ t2, ?_, ?_⟩
  · rw [hl2, hl1, List.append_assoc]
  · intro ev hev
    rcases List.mem_append.1 hev with h | h
    · exact hm1 ev h
    · exact hm2 ev h

theorem frame_metaSt (A : List Path) (p : Path) (st : St) :
    FrameOK A st ((metaSt p st).2) := by
  obtain ⟨hfs, hlog, _⟩ := metaSt_state p st
  exact ⟨fun q _ => by rw [hfs], [Event.mstat p (metaSt p st).1], hlog, by simp [touches]⟩

theorem frame_probeIgnore (A : List Path) (p : Path) (st : St) :
    FrameOK A st (probeIgnore p st) :=
  frame_metaSt A p st

theorem frame_renameSt (A : List Path) (s d : Path) (st : St)
    (hs : s ∈ A) (hd : d ∈ A) : FrameOK A st ((renameSt s d st).2) := by
  obtain ⟨f, orc, lg⟩ := st
  have hev : ∀ r : Res Unit, ∀ ev ∈ [Event.mrename s d r], ∀ q ∈ touches ev, q ∈ A := by
    intro r ev hev q hq
    simp at hev
    subst hev
    simp [touches] at hq
    rcases hq with rfl | rfl
    · exact hs
    · exact hd
  rcases orc with _ | ⟨o, rest⟩
  · rcases hf : f s with _ | en
    · refine ⟨fun q hq => ?_, [Event.mrename s d (Res.err enoent)], ?_, hev _⟩
      · simp [renameSt, next, emit, hf]
      · simp [renameSt, next, emit, hf]
    · refine ⟨fun q hq => ?_, [Event.mrename s d (Res.ok ())], ?_, hev _⟩
      · have h1 : ¬ q = d := fun h => hq (h ▸ hd)
        have h2 : ¬ q = s := fun h => hq (h ▸ hs)
        simp [renameSt, next, emit, hf, h1, h2]
      · simp [renameSt, next, emit, hf]
  · cases o with
    | ok =>
      rcases hf : f s with _ | en
      · refine ⟨fun q hq => ?_, [Event.mrename s d (Res.err enoent)], ?_, hev _⟩
        · simp [renameSt, next, emit, hf]
        · simp [renameSt, next, emit, hf]
      · refine ⟨fun q hq => ?_, [Event.mrename s d (Res.ok ())], ?_, hev _⟩
        · have h1 : ¬ q = d := fun h => hq (h ▸ hd)
          have h2 : ¬ q = s := fun h => hq (h ▸ hs)
          simp [renameSt, next, emit, hf, h1, h2]
        · simp [renameSt, next, emit, hf]
    | okResidue =>
      rcases hf : f s with _ | en
      · refine ⟨fun q hq => ?_, [Event.mrename s d (Res.err enoent)], ?_, hev _⟩
        · simp [renameSt, next, emit, hf]
        · simp [renameSt, next, emit, hf]
      · refine ⟨fun q hq => ?_, [Event.mrename s d (Res.ok ())], ?_, hev _⟩
        · have h1 : ¬ q = d := fun h => hq (h ▸ hd)
          have h2 : ¬ q = s := fun h => hq (h ▸ hs)
          simp [renameSt, next, emit, hf, h1, h2]
        · simp [renameSt, next, emit, hf]
    | err e0 =>
      refine ⟨fun q hq => ?_, [Event.mrename s d (Res.err e0)], ?_, hev _⟩
      · simp [renameSt, next, emit]
      · simp [renameSt, next, emit]

theorem frame_removeFileSt (A : List Path) (p : Path) (st : St)
    (hp : p ∈ A) : FrameOK A st ((removeFileSt p st).2) := by
  obtain ⟨f, orc, lg⟩ := st
  have hev : ∀ r : Res Unit, ∀ ev ∈ [Event.mremoveFile p r], ∀ q ∈ touches ev, q ∈ A := by
    intro r ev hev q hq
    simp at hev
    subst hev
    simp [touches] at hq
    subst hq
    exact hp
  rcases orc with _ | ⟨o, rest⟩
  · rcases hf : f p with _ | en
    · refine ⟨fun q hq => ?_, [Event.mremoveFile p (Res.err enoent)], ?_, hev _⟩
      · simp [removeFileSt, next, emit, hf]
      · simp [removeFileSt, next, emit, hf]
    · rcases hd : en.isDir with _ | _
      · refine ⟨fun q hq => ?_, [Event.mremoveFile p (Res.ok ())], ?_, hev _⟩
        · have h1 : ¬ q = p := fun h => hq (h ▸ hp)
          simp [removeFileSt, next, emit, hf, hd, h1]
        · simp [removeFileSt, next, emit, hf, hd]
      · refine ⟨fun q hq => ?_, [Event.mremoveFile p (Res.err eisdir)], ?_, hev _⟩
        · simp [removeFileSt, next, emit, hf, hd]
        · simp [removeFileSt, next, emit, hf, hd]
  · cases o with
    | ok =>
      rcases hf : f p with _ | en
      · refine ⟨fun q hq => ?_, [Event.mremoveFile p (Res.err enoent)], ?_, hev _⟩
        · simp [removeFileSt, next, emit, hf]
        · simp [removeFileSt, next, emit, hf]
      · rcases hd : en.isDir with _ | _
        · refine ⟨fun q hq => ?_, [Event.mremoveFile p (Res.ok ())], ?_, hev _⟩
          · have h1 : ¬ q = p := fun h => hq (h ▸ hp)
            simp [removeFileSt, next, emit, hf, hd, h1]
          · simp [removeFileSt, next, emit, hf, hd]
        · refine ⟨fun q hq => ?_, [Event.mremoveFile p (Res.err eisdir)], ?_, hev _⟩
          · simp [removeFileSt, next, emit, hf, hd]
          · simp [removeFileSt, next, emit, hf, hd]
    | okResidue =>
      rcases hf : f p with _ | en
      · refine ⟨fun q hq => ?_, [Event.mremoveFile p (Res.err enoent)], ?_, hev _⟩
        · simp [removeFileSt, next, emit, hf]
        · simp [removeFileSt, next, emit, hf]
      · rcases hd : en.isDir with _ | _
        · refine ⟨fun q hq => ?_, [Event.mremoveFile p (Res.ok ())], ?_, hev _⟩
          · have h1 : ¬ q = p := fun h => hq (h ▸ hp)
            simp [removeFileSt, next, emit, hf, hd, h1]
          · simp [removeFileSt, next, emit, hf, hd]
        · refine ⟨fun q hq => ?_, [Event.mremoveFile p (Res.err eisdir)], ?_, hev _⟩
          · simp [removeFileSt, next, emit, hf, hd]
          · simp [removeFileSt, next, emit, hf, hd]
    | err e0 =>
      refine ⟨fun q hq => ?_, [Event.mremoveFile p (Res.err e0)], ?_, hev _⟩
      · simp [removeFileSt, next, emit]
      · simp [removeFileSt, next, emit]

theorem frame_removeDirAllSt (A : List Path) (p : Path) (st : St)
    (hp : p ∈ A) : FrameOK A st ((removeDirAllSt p st).2) := by
  obtain ⟨f, orc, lg⟩ := st
  have hev : ∀ r : Res Unit, ∀ ev ∈ [Event.mremoveDirAll p r], ∀ q ∈ touches ev, q ∈ A := by
    intro r ev hev q hq
    simp at hev
    subst hev
    simp [touches] at hq
    subst hq
    exact hp
  rcases orc with _ | ⟨o, rest⟩
  · rcases hf : f p with _ | en
    · refine ⟨fun q hq => ?_, [Event.mremoveDirAll p (Res.err enoent)], ?_, hev _⟩
      · simp [removeDirAllSt, next, emit, hf]
      · simp [removeDirAllSt, next, emit, hf]
    · rcases hd : en.isDir with _ | _
      · refine ⟨fun q hq => ?_, [Event.mremoveDirAll p (Res.err enotdir)], ?_, hev _⟩
        · simp [removeDirAllSt, next, emit, hf, hd]
        · simp [removeDirAllSt, next, emit, hf, hd]
      · refine ⟨fun q hq => ?_, [Event.mremoveDirAll p (Res.ok ())], ?_, hev _⟩
        · have h1 : ¬ q = p := fun h => hq (h ▸ hp)
          simp [removeDirAllSt, next, emit, hf, hd, h1]
        · simp [removeDirAllSt, next, emit, hf, hd]
  · cases o with
    | ok =>
      rcases hf : f p with _ | en
      · refine ⟨fun q hq => ?_, [Event.mremoveDirAll p (Res.err enoent)], ?_, hev _⟩
        · simp [removeDirAllSt, next, emit, hf]
        · simp [removeDirAllSt, next, emit, hf]
      · rcases hd : en.isDir with _ | _
        · refine ⟨fun q hq => ?_, [Event.mremoveDirAll p (Res.err enotdir)], ?_, hev _⟩
          · simp [removeDirAllSt, next, emit, hf, hd]
          · simp [removeDirAllSt, next, emit, hf, hd]
        · refine ⟨fun q hq => ?_, [Event.mremoveDirAll p (Res.ok ())], ?_, hev _⟩
          · have h1 : ¬ q = p := fun h => hq (h ▸ hp)
            simp [removeDirAllSt, next, emit, hf, hd, h1]
          · simp [removeDirAllSt, next, emit, hf, hd]
    | okResidue =>
      rcases hf : f p with _ | en
      · refine ⟨fun q hq => ?_, [Event.mremoveDirAll p (Res.err enoent)], ?_, hev _⟩
        · simp [removeDirAllSt, next, emit, hf]
        · simp [removeDirAllSt, next, emit, hf]
      · rcases hd : en.isDir with _ | _
        · refine ⟨fun q hq => ?_, [Event.mremoveDirAll p (Res.err enotdir)], ?_, hev _⟩
          · simp [removeDirAllSt, next, emit, hf, hd]
          · simp [removeDirAllSt, next, emit, hf, hd]
        · refine ⟨fun q hq => ?_, [Event.mremoveDirAll p (Res.ok ())], ?_, hev _⟩
          · have h1 : ¬ q = p := fun h => hq (h ▸ hp)
            simp [removeDirAllSt, next, emit, hf, hd, h1]
          · simp [removeDirAllSt, next, emit, hf, hd]
    | err e0 =>
      refine ⟨fun q hq => ?_, [Event.mremoveDirAll p (Res.err e0)], ?_, hev _⟩
      · simp [removeDirAllSt, next, emit]
      · simp [removeDirAllSt, next, emit]

theorem frame_clearPath (A : List Path) (p : Path) (st : St)
    (hp : p ∈ A) : FrameOK A st ((clearPath p st).2) := by
  rcases hm : metaSt p st with ⟨r, st1⟩
  have h1 : FrameOK A st st1 := by
    have h := frame_metaSt A p st
    rw [hm] at h
    exact h
  rcases r with b | e
  · cases b
    · rw [clearPath_probe_file p st st1 hm]
      exact frameOK_trans A st st1 _ h1 (frame_removeFileSt A p st1 hp)
    · rw [clearPath_probe_dir p st st1 hm]
      exact frameOK_trans A st st1 _ h1 (frame_removeDirAllSt A p st1 hp)
  · by_cases hk : e.kind = ErrKind.notFound
    · rw [clearPath_probe_absent p st st1 e hm hk]
      exact h1
    · rw [clearPath_probe_err p st st1 e hm hk]
      exact h1

theorem frame_swapFrom7 (A : List Path) (a b tmp : Path) (st : St)
    (haa : a ∈ A) (hbb : b ∈ A) (htt : tmp ∈ A) :
    FrameOK A st ((swapFrom7 a b tmp st).2) := by
  rcases h7 : renameSt tmp b st with ⟨r, st1⟩
  have f1 : FrameOK A st st1 := by
    have h := frame_renameSt A tmp b st htt hbb
    rw [h7] at h
    exact h
  rcases r with u | e
  · rw [swapFrom7_ok a b tmp st st1 u h7]
    exact f1
  · rw [swapFrom7_err a b tmp st st1 e h7]
    rcases h8 : renameSt a b st1 with ⟨r2, st2⟩
    have f2 : FrameOK A st1 st2 := by
      have h := frame_renameSt A a b st1 haa hbb
      rw [h8] at h
      exact h
    rcases r2 with u | e2
    · show FrameOK A st ((renameSt tmp a st2).2)
      have f3 := frame_renameSt A tmp a st2 htt haa
      exact frameOK_trans A st st2 _ (frameOK_trans A st st1 st2 f1 f2) f3
    · show FrameOK A st st2
      exact frameOK_trans A st st1 st2 f1 f2

theorem frame_swapFrom5 (A : List Path) (a b tmp : Path) (st : St)
    (haa : a ∈ A) (hbb : b ∈ A) (htt : tmp ∈ A) :
    FrameOK A st ((swapFrom5 a b tmp st).2) := by
  rcases h5 : renameSt b a st with ⟨r, st1⟩
  have f1 : FrameOK A st st1 := by
    have h := frame_renameSt A b a st hbb haa
    rw [h5] at h
    exact h
  rcases r with u | e
  · cases u
    rw [swapFrom5_ok5 a b tmp st st1 () h5]
    rcases hc : clearPath b st1 with ⟨rc, st2⟩
    have f2 : FrameOK A st1 st2 := by
      have h := frame_clearPath A b st1 hbb
      rw [hc] at h
      exact h
    rcases rc with u | e
    · show FrameOK A st ((swapFrom7 a b tmp st2).2)
      exact frameOK_trans A st st2 _ (frameOK_trans A st st1 st2 f1 f2)
        (frame_swapFrom7 A a b tmp st2 haa hbb htt)
    · show FrameOK A st st2
      exact frameOK_trans A st st1 st2 f1 f2
  · rw [swapFrom5_err5 a b tmp st st1 e h5]
    exact frameOK_trans A st st1 _ f1 (frame_renameSt A tmp a st1 htt haa)

theorem frame_swapFrom3 (A : List Path) (a b tmp : Path) (st : St)
    (haa : a ∈ A) (hbb : b ∈ A) (htt : tmp ∈ A) :
    FrameOK A st ((swapFrom3 a b tmp st).2) := by
  rcases h3 : renameSt a tmp st with ⟨r, st1⟩
  have f1 : FrameOK A st st1 := by
    have h := frame_renameSt A a tmp st haa htt
    rw [h3] at h
    exact h
  rcases r with u | e
  · cases u
    rcases hc : clearPath a st1 with ⟨rc, st2⟩
    have f2 : FrameOK A st1 st2 := by
      have h := frame_clearPath A a st1 haa
      rw [hc] at h
      exact h
    rcases rc with u | e
    · cases u
      rw [swapFrom3_ok a b tmp st st1 st2 h3 hc]
      have f3 : FrameOK A st2 (probeIgnore b st2) := frame_probeIgnore A b st2
      exact frameOK_trans A st (probeIgnore b st2) _
        (frameOK_trans A st st2 _ (frameOK_trans A st st1 st2 f1 f2) f3)
        (frame_swapFrom5 A a b tmp (probeIgnore b st2) haa hbb htt)
    · rw [swapFrom3_clear_err a b tmp st st1 st2 e h3 hc]
      exact frameOK_trans A st st1 st2 f1 f2
  · rw [swapFrom3_err a b tmp st st1 e h3]
    exact f1

def slotList (a b : Path) : List Path :=
  match slotOpt a b with
  | some t => [t]
  | none => []

theorem frame_swap_nonatomic (a b : Path) (st : St) :
    FrameOK (a :: b :: slotList a b) st ((swap_nonatomic a b st).2) := by
  rcases hs : slotOpt a b with _ | tmp
  · rw [swap_nonatomic_noparent a b st hs]
    exact frameOK_refl _ _
  · have htt : tmp ∈ a :: b :: slotList a b := by
      simp [slotList, hs]
    have haa : a ∈ a :: b :: slotList a b := by simp
    have hbb : b ∈ a :: b :: slotList a b := by simp
    rw [swap_nonatomic_slot a b tmp st hs]
    rcases hc : clearPath tmp st with ⟨rc, st1⟩
    have f1 : FrameOK (a :: b :: slotList a b) st st1 := by
      have h := frame_clearPath (a :: b :: slotList a b) tmp st htt
      rw [hc] at h
      exact h
    rcases rc with u | e
    · show FrameOK (a :: b :: slotList a b) st ((swapFrom3 a b tmp st1).2)
      exact frameOK_trans _ st st1 _ f1
        (frame_swapFrom3 (a :: b :: slotList a b) a b tmp st1 haa hbb htt)
    · show FrameOK (a :: b :: slotList a b) st st1
      exact f1

/- Concrete scenarios used by witnesses and counterexamples. -/

def wA : Path := ["a"]

def wB : Path := ["b"]

def wT : Path := ["tmp.fs_swap"]

def eperm : Err := { kind := ErrKind.permissionDenied, msg := "PermissionDenied" }

/- a holds "foo", b holds "bar" (payloads 1 and 2), no faults. -/
def fsAB : Fs := fun p =>
  if p = wA then some (Entry.file 1) else if p = wB then some (Entry.file 2) else none

def stAB : St := { fs := fsAB, oracle := [], log := [] }

/- a exists, b absent, no faults. -/
def fsAonly : Fs := fun p => if p = wA then some (Entry.file 1) else none

def stAonly : St := { fs := fsAonly, oracle := [], log := [] }

/- a exists and the holding-slot path itself holds an entry; used with b
equal to the slot path. -/
def fsAT : Fs := fun p =>
  if p = wA then some (Entry.file 1) else if p = wT then some (Entry.file 2) else none

def stAT : St := { fs := fsAT, oracle := [], log := [] }

/- Claim C4. -/

/-- Claim C4: swap_nonatomic places the holding slot at the fixed name
tmp.fs_swap inside the parent directory of a, or inside the parent directory
of b when a has no parent; if neither a nor b has a parent directory, the
call fails with the NoParentDirectory error (kind NotFound, message "Could
not find a parent directory") and returns the state untouched: no filesystem
entity has been created, removed or renamed, and not even a probe has run. -/
theorem c4_slot_location (a b : Path) (st : St) :
    (∀ d, parent a = some d → slotOpt a b = some (d ++ [TMP_SWAP_FILE])) ∧
    (parent a = none → ∀ d, parent b = some d →
      slotOpt a b = some (d ++ [TMP_SWAP_FILE])) ∧
    (parent a = none → parent b = none →
      swap_nonatomic a b st = (Res.err noParentErr, st)) := by
  refine ⟨?_, ?_, ?_⟩
  · intro d hd
    simp [slotOpt, hd]
  · intro ha d hd
    simp [slotOpt, ha, hd]
  · intro ha hb
    have hs : slotOpt a b = none := by simp [slotOpt, ha, hb]
    exact swap_nonatomic_noparent a b st hs

theorem c4_witness :
    slotOpt wA wB = some wT ∧
    swap_nonatomic ([] : Path) ([] : Path) stAB = (Res.err noParentErr, stAB) := by
  constructor
  · exact (c4_slot_location wA wB stAB).1 [] rfl
  · exact (c4_slot_location ([] : Path) ([] : Path) stAB).2.2 rfl rfl

/- Claim C6. -/

/-- Claim C6: if the step-3 evacuation rename of a to the holding slot fails,
swap_nonatomic returns exactly that error, every path other than the holding
slot (in particular both operands, whenever neither is the slot itself) still
holds its original content, and no entry exists at the holding-slot path: the
state is unchanged apart from the already-cleared stale slot.  Oracle
wellformedness rules out a probe lying NotFound about an existing entry. -/
theorem c6_evacuation_failure (a b tmp : Path) (st st1 st2 : St) (e : Err)
    (hwf : oracleWF st.oracle)
    (hslot : slotOpt a b = some tmp)
    (h2 : clearPath tmp st = (Res.ok (), st1))
    (h3 : renameSt a tmp st1 = (Res.err e, st2)) :
    swap_nonatomic a b st = (Res.err e, st2) ∧
    (∀ p, p ≠ tmp → st2.fs p = st.fs p) ∧
    st2.fs tmp = none := by
  obtain ⟨hcn, hcq⟩ := clearPath_ok_wf tmp st st1 hwf h2
  obtain ⟨hrfs, _, _⟩ := renameSt_err_state a tmp st1 st2 e h3
  refine ⟨?_, ?_, ?_⟩
  · rw [swap_nonatomic_cleared a b tmp st st1 hslot h2]
    exact swapFrom3_err a b tmp st1 st2 e h3
  · intro p hp
    rw [hrfs]
    exact hcq p hp
  · rw [hrfs]
    exact hcn

def stC6 : St := { fs := fsAB, oracle := [Outcome.ok, Outcome.err eperm], log := [] }

def c6st1 : St := (clearPath wT stC6).2

def c6st2 : St := (renameSt wA wT c6st1).2

theorem c6_witness :
    swap_nonatomic wA wB stC6 = (Res.err eperm, c6st2) ∧
    (∀ p, p ≠ wT → c6st2.fs p = stC6.fs p) ∧
    c6st2.fs wT = none :=
  c6_evacuation_failure wA wB wT stC6 c6st1 c6st2 eperm (by decide) rfl rfl rfl

/- Claim C2. -/

/-- Claim C2 (amended): if the step-5 rename of b to a fails during
swap_nonatomic, the engine attempts exactly one rollback rename of the
holding slot back to a and the call returns that rollback rename's result
verbatim: the rollback error if the rollback failed, and success (Ok) if the
rollback succeeded.  The original step-5 error is discarded either way, so on
a successful rollback the call does report success; the original claim's "in
no case does it report success" and "returns the original step-5 error if the
rollback succeeded" are refuted by c2_counterexample. -/
theorem c2_step5_rollback (a b tmp : Path) (st0 st1 st2 st3 st5 : St) (e5 : Err)
    (hslot : slotOpt a b = some tmp)
    (h2 : clearPath tmp st0 = (Res.ok (), st1))
    (h3 : renameSt a tmp st1 = (Res.ok (), st2))
    (h4 : clearPath a st2 = (Res.ok (), st3))
    (h5 : renameSt b a (probeIgnore b st3) = (Res.err e5, st5)) :
    swap_nonatomic a b st0 = renameSt tmp a st5 ∧
    st5.log = (probeIgnore b st3).log ++ [Event.mrename b a (Res.err e5)] := by
  obtain ⟨_, hlog, _⟩ := renameSt_err_state b a (probeIgnore b st3) st5 e5 h5
  constructor
  · rw [swap_nonatomic_cleared a b tmp st0 st1 hslot h2,
      swapFrom3_ok a b tmp st1 st2 st3 h3 h4]
    exact swapFrom5_err5 a b tmp (probeIgnore b st3) st5 e5 h5
  · exact hlog

/-- Claim C2 counterexample: with a existing and b absent (fault-free run),
the step-5 rename of b to a fails with NotFound - the log records the failed
rename of b to a - and the rollback rename of the holding slot back to a
succeeds, after which swap_nonatomic returns success, not the original
step-5 error. -/
theorem c2_counterexample :
    (swap_nonatomic wA wB stAonly).1 = Res.ok () ∧
    ((swap_nonatomic wA wB stAonly).2).log =
      [Event.mstat wT (Res.err enoent),
       Event.mrename wA wT (Res.ok ()),
       Event.mstat wA (Res.err enoent),
       Event.mstat wB (Res.err enoent),
       Event.mrename wB wA (Res.err enoent),
       Event.mrename wT wA (Res.ok ())] := by
  refine ⟨rfl, rfl⟩

def c2st2 : St := (renameSt wA wT (clearPath wT stAonly).2).2

def c2st3 : St := (clearPath wA c2st2).2

def c2st5 : St := (renameSt wB wA (probeIgnore wB c2st3)).2

theorem c2_witness :
    swap_nonatomic wA wB stAonly = renameSt wT wA c2st5 ∧
    c2st5.log = (probeIgnore wB c2st3).log ++ [Event.mrename wB wA (Res.err enoent)] :=
  c2_step5_rollback wA wB wT stAonly (clearPath wT stAonly).2 c2st2 c2st3 c2st5 enoent
    rfl rfl rfl rfl rfl

/- Claim C3. -/

/-- Claim C3: if the final step-7 rename of the holding slot to b fails,
swap_nonatomic performs the two-step undo: it first renames a to b and then
renames the holding slot to a.  If the first undo rename fails, that failure
is returned and the second undo rename is not attempted (the log gains only
the single failed undo event); if the first undo succeeds, the call returns
the result of the second undo rename, so a failure there is returned. -/
theorem c3_step7_undo (a b tmp : Path) (st0 st1 st2 st3 st5 st6 st7 : St) (e7 : Err)
    (hslot : slotOpt a b = some tmp)
    (h2 : clearPath tmp st0 = (Res.ok (), st1))
    (h3 : renameSt a tmp st1 = (Res.ok (), st2))
    (h4 : clearPath a st2 = (Res.ok (), st3))
    (h5 : renameSt b a (probeIgnore b st3) = (Res.ok (), st5))
    (h6 : clearPath b st5 = (Res.ok (), st6))
    (h7 : renameSt tmp b st6 = (Res.err e7, st7)) :
    (∀ e su, renameSt a b st7 = (Res.err e, su) →
      swap_nonatomic a b st0 = (Res.err e, su) ∧
      su.log = st7.log ++ [Event.mrename a b (Res.err e)]) ∧
    (∀ su, renameSt a b st7 = (Res.ok (), su) →
      swap_nonatomic a b st0 = renameSt tmp a su) := by
  have hrun : swap_nonatomic a b st0 =
      match renameSt a b st7 with
      | (Res.err e2, s) => (Res.err e2, s)
      | (Res.ok _, s) => renameSt tmp a s := by
    rw [swap_nonatomic_cleared a b tmp st0 st1 hslot h2,
      swapFrom3_ok a b tmp st1 st2 st3 h3 h4,
      swapFrom5_ok5 a b tmp (probeIgnore b st3) st5 () h5]
    show (match clearPath b st5 with
      | (Res.err e, s) => (Res.err e, s)
      | (Res.ok _, s) => swapFrom7 a b tmp s) = _
    rw [h6]
    show swapFrom7 a b tmp st6 = _
    exact swapFrom7_err a b tmp st6 st7 e7 h7
  constructor
  · intro e su h8
    obtain ⟨_, hlog, _⟩ := renameSt_err_state a b st7 su e h8
    refine ⟨?_, hlog⟩
    rw [hrun, h8]
  · intro su h8
    rw [hrun, h8]

def stC3 : St :=
  { fs := fsAB,
    oracle := [Outcome.ok, Outcome.ok, Outcome.ok, Outcome.ok, Outcome.ok,
      Outcome.ok, Outcome.err eperm],
    log := [] }

def c3st1 : St := (clearPath wT stC3).2

def c3st2 : St := (renameSt wA wT c3st1).2

def c3st3 : St := (clearPath wA c3st2).2

def c3st5 : St := (renameSt wB wA (probeIgnore wB c3st3)).2

def c3st6 : St := (clearPath wB c3st5).2

def c3st7 : St := (renameSt wT wB c3st6).2

theorem c3_witness :
    (∀ e su, renameSt wA wB c3st7 = (Res.err e, su) →
      swap_nonatomic wA wB stC3 = (Res.err e, su) ∧
      su.log = c3st7.log ++ [Event.mrename wA wB (Res.err e)]) ∧
    (∀ su, renameSt wA wB c3st7 = (Res.ok (), su) →
      swap_nonatomic wA wB stC3 = renameSt wT wA su) :=
  c3_step7_undo wA wB wT stC3 c3st1 c3st2 c3st3 c3st5 c3st6 c3st7 eperm
    rfl rfl rfl rfl rfl rfl rfl

/- Claim C7. -/

/-- Claim C7: after the successful step-3 evacuation rename of a, and after
the successful step-5 relocation rename of b into a, swap_nonatomic probes
the just-vacated source path (a, respectively b) and removes whatever entry
is still present there using the same type dispatch as the stale-slot clear
(the shared clearPath shape): a directory is removed recursively via
remove_dir_all, a file singly via remove_file, a NotFound probe result is
tolerated and is not an error, and any other probe error - like any removal
error - is returned through the error arm of the continuation. -/
theorem c7_defensive_clears (a b tmp : Path) (st0 st1 st2 : St)
    (hslot : slotOpt a b = some tmp)
    (h2 : clearPath tmp st0 = (Res.ok (), st1))
    (h3 : renameSt a tmp st1 = (Res.ok (), st2)) :
    (swap_nonatomic a b st0 =
      match clearPath a st2 with
      | (Res.err e, s) => (Res.err e, s)
      | (Res.ok _, s) => swapFrom5 a b tmp (probeIgnore b s)) ∧
    (∀ st st' : St, renameSt b a st = (Res.ok (), st') →
      swapFrom5 a b tmp st =
        match clearPath b st' with
        | (Res.err e, s) => (Res.err e, s)
        | (Res.ok _, s) => swapFrom7 a b tmp s) ∧
    (∀ p : Path, ∀ st st' : St, metaSt p st = (Res.ok true, st') →
      clearPath p st = removeDirAllSt p st') ∧
    (∀ p : Path, ∀ st st' : St, metaSt p st = (Res.ok false, st') →
      clearPath p st = removeFileSt p st') ∧
    (∀ p : Path, ∀ st st' : St, ∀ e : Err, metaSt p st = (Res.err e, st') →
      e.kind = ErrKind.notFound → clearPath p st = (Res.ok (), st')) ∧
    (∀ p : Path, ∀ st st' : St, ∀ e : Err, metaSt p st = (Res.err e, st') →
      e.kind ≠ ErrKind.notFound → clearPath p st = (Res.err e, st')) := by
  refine ⟨?_, ?_, clearPath_probe_dir, clearPath_probe_file,
    clearPath_probe_absent, clearPath_probe_err⟩
  · rw [swap_nonatomic_cleared a b tmp st0 st1 hslot h2]
    unfold swapFrom3
    rw [h3]
  · intro st st' h
    exact swapFrom5_ok5 a b tmp st st' () h

def fsDD : Fs := fun p =>
  if p = wA then some (Entry.dir 1) else if p = wB then some (Entry.dir 2) else none

def stC7 : St := { fs := fsDD, oracle := [Outcome.ok, Outcome.okResidue], log := [] }

def c7st1 : St := (clearPath wT stC7).2

def c7st2 : St := (renameSt wA wT c7st1).2

/- Claim C1. -/

/-- Claim C1 counterexample: with a existing and b absent, a fault-free
swap_nonatomic returns success (the step-5 rename of b fails NotFound and the
successful rollback's Ok is returned), yet nothing was exchanged: b is still
absent afterwards, so the content formerly at a is not at b. -/
theorem c1_counterexample :
    (swap_nonatomic wA wB stAonly).1 = Res.ok () ∧
    stAonly.fs wA = some (Entry.file 1) ∧
    ((swap_nonatomic wA wB stAonly).2).fs wB = none := by
  refine ⟨rfl, rfl, rfl⟩

/-- Claim C1 (amended): for every pair of paths (a, b) such that both
operands exist, neither operand is the holding-slot path, and every
filesystem operation behaves normally (empty fault oracle), swap_nonatomic
returns success and the content formerly at a is now at b and the content
formerly at b is now at a, for file and directory entries alike (an entry
carries its whole subtree).  The amendment adds the existence, non-slot and
fault-free conditions: without them the code can return success without
exchanging (see c1_counterexample). -/
theorem c1_success_swaps (a b tmp : Path) (st : St) (ea eb : Entry)
    (hslot : slotOpt a b = some tmp) (ha : a ≠ tmp) (hb : b ≠ tmp)
    (hor : st.oracle = []) (hfa : st.fs a = some ea) (hfb : st.fs b = some eb) :
    (swap_nonatomic a b st).1 = Res.ok () ∧
    ((swap_nonatomic a b st).2).fs a = st.fs b ∧
    ((swap_nonatomic a b st).2).fs b = st.fs a := by
  obtain ⟨h1, h2, h3, _, _⟩ := run_success a b tmp st ea eb hslot ha hb hor hfa hfb
  exact ⟨h1, h2, h3⟩

theorem c1_witness :
    (swap_nonatomic wA wB stAB).1 = Res.ok () ∧
    ((swap_nonatomic wA wB stAB).2).fs wA = stAB.fs wB ∧
    ((swap_nonatomic wA wB stAB).2).fs wB = stAB.fs wA :=
  c1_success_swaps wA wB wT stAB (Entry.file 1) (Entry.file 2) rfl (by decide) (by decide)
    rfl rfl rfl

/- Claim C5. -/

/-- Claim C5: with a usable parent for the pair, swap_nonatomic inspects the
holding-slot path before performing any rename: the whole run is the
stale-slot clear followed by the rest of the protocol, and in that clear a
pre-existing directory is removed recursively via remove_dir_all, a
pre-existing file is removed via remove_file, absence (a NotFound probe
result) is tolerated, and any other inspection error is returned unchanged.
Consequently a pre-existing entry at the holding-slot path never prevents an
otherwise-successful fault-free swap: with both operands present and distinct
from the slot, the run still succeeds, the contents are exchanged, and the
stale entry is gone afterwards. -/
theorem c5_stale_slot (a b tmp : Path) (st : St)
    (hslot : slotOpt a b = some tmp) :
    (swap_nonatomic a b st =
      match clearPath tmp st with
      | (Res.err e, s) => (Res.err e, s)
      | (Res.ok _, s) => swapFrom3 a b tmp s) ∧
    (∀ st1 : St, metaSt tmp st = (Res.ok true, st1) →
      clearPath tmp st = removeDirAllSt tmp st1) ∧
    (∀ st1 : St, metaSt tmp st = (Res.ok false, st1) →
      clearPath tmp st = removeFileSt tmp st1) ∧
    (∀ st1 : St, ∀ e : Err, metaSt tmp st = (Res.err e, st1) →
      e.kind = ErrKind.notFound → clearPath tmp st = (Res.ok (), st1)) ∧
    (∀ st1 : St, ∀ e : Err, metaSt tmp st = (Res.err e, st1) →
      e.kind ≠ ErrKind.notFound → clearPath tmp st = (Res.err e, st1)) ∧
    (∀ ea eb es : Entry, a ≠ tmp → b ≠ tmp → st.oracle = [] →
      st.fs a = some ea → st.fs b = some eb → st.fs tmp = some es →
      (swap_nonatomic a b st).1 = Res.ok () ∧
      ((swap_nonatomic a b st).2).fs a = st.fs b ∧
      ((swap_nonatomic a b st).2).fs b = st.fs a ∧
      ((swap_nonatomic a b st).2).fs tmp = none) := by
  refine ⟨swap_nonatomic_slot a b tmp st hslot,
    fun st1 h => clearPath_probe_dir tmp st st1 h,
    fun st1 h => clearPath_probe_file tmp st st1 h,
    fun st1 e h hk => clearPath_probe_absent tmp st st1 e h hk,
    fun st1 e h hk => clearPath_probe_err tmp st st1 e h hk,
    ?_⟩
  intro ea eb es ha hb hor hfa hfb hft
  obtain ⟨h1, h2, h3, h4, _⟩ := run_success a b tmp st ea eb hslot ha hb hor hfa hfb
  exact ⟨h1, h2, h3, h4⟩

/- a and b both exist and a stale directory occupies the holding slot. -/
def fsStale : Fs := fun p =>
  if p = wA then some (Entry.file 1)
  else if p = wB then some (Entry.file 2)
  else if p = wT then some (Entry.dir 7)
  else none

def stStale : St := { fs := fsStale, oracle := [], log := [] }

theorem c5_witness :
    (swap_nonatomic wA wB stStale).1 = Res.ok () ∧
    ((swap_nonatomic wA wB stStale).2).fs wA = stStale.fs wB ∧
    ((swap_nonatomic wA wB stStale).2).fs wB = stStale.fs wA ∧
    ((swap_nonatomic wA wB stStale).2).fs wT = none :=
  (c5_stale_slot wA wB wT stStale rfl).2.2.2.2.2 (Entry.file 1) (Entry.file 2) (Entry.dir 7)
    (by decide) (by decide) rfl rfl rfl rfl

/- Claim C8. -/

theorem swap_call_exchanges (ao : AtomicOutcome) (a b tmp : Path) (st : St) (ea eb : Entry)
    (hslot : slotOpt a b = some tmp) (ha : a ≠ tmp) (hb : b ≠ tmp)
    (hor : st.oracle = []) (hfa : st.fs a = some ea) (hfb : st.fs b = some eb)
    (hok : (swap ao a b st).1 = Res.ok ()) :
    ((swap ao a b st).2).fs a = st.fs b ∧
    ((swap ao a b st).2).fs b = st.fs a ∧
    ((swap ao a b st).2).oracle = [] := by
  cases ao with
  | handled =>
    refine ⟨?_, ?_, hor⟩
    · show atomicExchangeFs a b st.fs a = st.fs b
      simp [atomicExchangeFs]
    · show atomicExchangeFs a b st.fs b = st.fs a
      by_cases hab : b = a
      · subst hab
        simp [atomicExchangeFs]
      · simp [atomicExchangeFs, hab]
  | failed e => simp [swap] at hok
  | notSupported =>
    obtain ⟨h1, h2, h3, _, h5⟩ := run_success a b tmp st ea eb hslot ha hb hor hfa hfb
    exact ⟨h2, h3, h5⟩

/-- Claim C8 counterexample: with b equal to the holding-slot path (both
entries present, atomic primitive unsupported so the nonatomic engine runs,
no faults), two successive swap calls both return success, yet the content
originally at b is not restored: b is absent at the end. -/
theorem c8_counterexample :
    (swap AtomicOutcome.notSupported wA wT stAT).1 = Res.ok () ∧
    (swap AtomicOutcome.notSupported wA wT
      (swap AtomicOutcome.notSupported wA wT stAT).2).1 = Res.ok () ∧
    stAT.fs wT = some (Entry.file 2) ∧
    ((swap AtomicOutcome.notSupported wA wT
      (swap AtomicOutcome.notSupported wA wT stAT).2).2).fs wT = none := by
  refine ⟨rfl, rfl, rfl, rfl⟩

/-- Claim C8 (amended): for every pair of paths (a, b) where both operands
exist, neither operand is the holding-slot path, and execution is fault-free,
two successive swap calls - each trying the atomic primitive and falling back
to swap_nonatomic when it reports not-supported - that both succeed restore
the original content at both locations.  The amendment adds the existence,
non-slot and fault-free conditions (see c8_counterexample, where b is the
slot path, both calls succeed, and b's content is lost). -/
theorem c8_round_trip (ao1 ao2 : AtomicOutcome) (a b tmp : Path) (st : St) (ea eb : Entry)
    (hslot : slotOpt a b = some tmp) (ha : a ≠ tmp) (hb : b ≠ tmp)
    (hor : st.oracle = []) (hfa : st.fs a = some ea) (hfb : st.fs b = some eb)
    (hs1 : (swap ao1 a b st).1 = Res.ok ())
    (hs2 : (swap ao2 a b (swap ao1 a b st).2).1 = Res.ok ()) :
    ((swap ao2 a b (swap ao1 a b st).2).2).fs a = st.fs a ∧
    ((swap ao2 a b (swap ao1 a b st).2).2).fs b = st.fs b := by
  obtain ⟨h1a, h1b, h1o⟩ :=
    swap_call_exchanges ao1 a b tmp st ea eb hslot ha hb hor hfa hfb hs1
  have hfa1 : ((swap ao1 a b st).2).fs a = some eb := by rw [h1a, hfb]
  have hfb1 : ((swap ao1 a b st).2).fs b = some ea := by rw [h1b, hfa]
  obtain ⟨h2a, h2b, _⟩ :=
    swap_call_exchanges ao2 a b tmp (swap ao1 a b st).2 eb ea hslot ha hb h1o hfa1 hfb1 hs2
  constructor
  · rw [h2a, h1b]
  · rw [h2b, h1a]

theorem c8_witness :
    ((swap AtomicOutcome.notSupported wA wB
      (swap AtomicOutcome.notSupported wA wB stAB).2).2).fs wA = stAB.fs wA ∧
    ((swap AtomicOutcome.notSupported wA wB
      (swap AtomicOutcome.notSupported wA wB stAB).2).2).fs wB = stAB.fs wB :=
  c8_round_trip AtomicOutcome.notSupported AtomicOutcome.notSupported wA wB wT stAB
    (Entry.file 1) (Entry.file 2) rfl (by decide) (by decide) rfl rfl rfl rfl rfl

/- Claim C9. -/

/-- Claim C9: every filesystem entry that swap_nonatomic creates, removes or
renames (as source or destination) lies at one of the paths a, b, or the
holding-slot path: whatever the outcome and whatever faults occur, every path
outside that set keeps its entry unchanged and no logged operation that
mutates the filesystem mentions it. -/
theorem c9_frame (a b : Path) (st : St) (r : Res Unit) (st' : St)
    (h : swap_nonatomic a b st = (r, st')) :
    FrameOK (a :: b :: slotList a b) st st' := by
  have hf := frame_swap_nonatomic a b st
  rw [h] at hf
  exact hf

theorem c9_witness :
    FrameOK (wA :: wB :: slotList wA wB) stAB (swap_nonatomic wA wB stAB).2 :=
  c9_frame wA wB stAB (swap_nonatomic wA wB stAB).1 (swap_nonatomic wA wB stAB).2 rfl

/- Claim C10. -/

/-- Claim C10: for every existing path a that has a parent directory and is
not itself the holding-slot path tmp.fs_swap, the fault-free self-swap
swap_nonatomic(a, a) returns success and leaves the content at a unchanged
(internally, the step-5 relocation rename finds its source already evacuated
and fails, and the successful recovery rename of the holding slot back to a
is reported as success). -/
theorem c10_self_swap (a tmp : Path) (st : St) (ea : Entry)
    (hslot : slotOpt a a = some tmp) (ha : a ≠ tmp)
    (hor : st.oracle = []) (hfa : st.fs a = some ea) :
    (swap_nonatomic a a st).1 = Res.ok () ∧
    ((swap_nonatomic a a st).2).fs a = some ea := by
  obtain ⟨h1, h2, _, _, _⟩ := run_success a a tmp st ea ea hslot ha ha hor hfa hfa
  refine ⟨h1, ?_⟩
  rw [h2, hfa]

theorem c10_witness :
    (swap_nonatomic wA wA stAB).1 = Res.ok () ∧
    ((swap_nonatomic wA wA stAB).2).fs wA = some (Entry.file 1) :=
  c10_self_swap wA wT stAB (Entry.file 1) rfl (by decide) rfl rfl

theorem c7_witness :
    (swap_nonatomic wA wB stC7 =
      match clearPath wA c7st2 with
      | (Res.err e, s) => (Res.err e, s)
      | (Res.ok _, s) => swapFrom5 wA wB wT (probeIgnore wB s)) ∧
    (∀ st st' : St, renameSt wB wA st = (Res.ok (), st') →
      swapFrom5 wA wB wT st =
        match clearPath wB st' with
        | (Res.err e, s) => (Res.err e, s)
        | (Res.ok _, s) => swapFrom7 wA wB wT s) ∧
    (∀ p : Path, ∀ st st' : St, metaSt p st = (Res.ok true, st') →
      clearPath p st = removeDirAllSt p st') ∧
    (∀ p : Path, ∀ st st' : St, metaSt p st = (Res.ok false, st') →
      clearPath p st = removeFileSt p st') ∧
    (∀ p : Path, ∀ st st' : St, ∀ e : Err, metaSt p st = (Res.err e, st') →
      e.kind = ErrKind.notFound → clearPath p st = (Res.ok (), st')) ∧
    (∀ p : Path, ∀ st st' : St, ∀ e : Err, metaSt p st = (Res.err e, st') →
      e.kind ≠ ErrKind.notFound → clearPath p st = (Res.err e, st')) :=
  c7_defensive_clears wA wB wT stC7 c7st1 c7st2 rfl rfl rfl

end FsSwap
